import Mathlib

/-!
Verification of the Notion MCP bridge (`client.py`).

The Python code manipulates JSON-shaped values (`dict[str, Any]`) coming from
the Notion API.  We embed those values as the inductive type `JVal`, and embed
each Python helper as a Lean function over `JVal`.  Operations that can raise a
Python exception (`AttributeError` on `.get` of a non-dict, `TypeError` on
iterating a non-iterable or joining non-strings, unhashable dict keys) are
embedded in `Except PyErr`.  External Notion API responses are supplied by a
`NotionEnv` world, and every external call performed is logged as an `ExtCall`
so that "performs zero / exactly N external calls" claims are statable.
-/

/-- A Python/JSON value: `None`, booleans, integers, strings, lists, dicts. -/
inductive JVal where
  | null : JVal
  | bool : Bool → JVal
  | num : Int → JVal
  | str : String → JVal
  | arr : List JVal → JVal
  | obj : List (String × JVal) → JVal

/-- Python exceptions that the embedded code can raise. -/
inductive PyErr where
  /-- `ValueError(msg)` -/
  | valueError : String → PyErr
  /-- `AttributeError`, e.g. `.get` called on a non-dict. -/
  | attributeError : PyErr
  /-- `TypeError`, e.g. iterating a non-iterable, joining a non-string,
      unhashable dict key. -/
  | typeError : PyErr
  /-- model artifact: the environment supplied no further external response. -/
  | envExhausted : PyErr
  deriving DecidableEq, Repr

/-- First-match association lookup; Python dict keys are unique, so taking the
first binding models `dict.__getitem__`. -/
def dlookup : List (String × JVal) → String → Option JVal
  | [], _ => none
  | (k, v) :: rest, key => if k = key then some v else dlookup rest key

/-- Python truthiness (`bool(v)`): `None`, `False`, `0`, `""`, `[]`, `{}` are
falsy, everything else truthy. -/
def pyTruthy : JVal → Bool
  | .null => false
  | .bool b => b
  | .num n => n != 0
  | .str s => !s.isEmpty
  | .arr xs => !xs.isEmpty
  | .obj fs => !fs.isEmpty

/-- `v.get(key, dflt)` where `v` must be a dict (otherwise Python raises
`AttributeError`). -/
def pyGet (v : JVal) (key : String) (dflt : JVal) : Except PyErr JVal :=
  match v with
  | .obj fs => .ok ((dlookup fs key).getD dflt)
  | _ => .error .attributeError

/-- Total variant of `pyGet`, usable in theorem statements once the value is
known to be a dict (returns the default on a non-dict). -/
def jGetD (v : JVal) (key : String) (dflt : JVal) : JVal :=
  match v with
  | .obj fs => (dlookup fs key).getD dflt
  | _ => dflt

/-- Iterating a Python value: lists yield their elements, strings yield their
characters (as 1-character strings), dicts yield their keys; `None`, booleans
and numbers raise `TypeError`. -/
def pyIterate : JVal → Except PyErr (List JVal)
  | .arr xs => .ok xs
  | .str s => .ok (s.toList.map (fun c => .str (String.mk [c])))
  | .obj fs => .ok (fs.map (fun kv => .str kv.1))
  | _ => .error .typeError

/-- `"".join(vals)`: every element must be a string, else `TypeError`. -/
def pyJoinStrs : List JVal → Except PyErr String
  | [] => .ok ""
  | .str s :: rest => do
      let t ← pyJoinStrs rest
      return s ++ t
  | _ :: _ => .error .typeError

/-- ASCII whitespace stripped by `str.strip()` (model restricted to the ASCII
whitespace actually occurring in this data). -/
def isWs (c : Char) : Bool :=
  c = ' ' || c = '\t' || c = '\n' || c = '\r'

/-- `s.strip()`: drop leading and trailing whitespace. -/
def pyStrip (s : String) : String :=
  String.mk (((s.toList.dropWhile isWs).reverse.dropWhile isWs).reverse)

/-- `s.lower()` (ASCII model of Python lower-casing). -/
def pyLower (s : String) : String :=
  String.mk (s.toList.map Char.toLower)

/-- `needle` occurs at the start of `hay` (character lists). -/
def matchesAt : List Char → List Char → Bool
  | [], _ => true
  | _ :: _, [] => false
  | n :: ns, h :: hs => n = h && matchesAt ns hs

/-- `needle in hay` for character lists (Python substring containment; the
empty needle is contained in everything). -/
def hasSub (needle : List Char) : List Char → Bool
  | [] => needle.isEmpty
  | h :: hs => matchesAt needle (h :: hs) || hasSub needle hs

/-- `needle in hay` for strings. -/
def hasSubstr (hay needle : String) : Bool :=
  hasSub needle.toList hay.toList

/-- `_extract_rich_text(block)`:
```
block_type = block.get("type")
block_payload = block.get(block_type, {}) if block_type else {}
rich_text = block_payload.get("rich_text", [])
return "".join(item.get("plain_text", "") for item in rich_text).strip()
```
A non-string hashable `block_type` (number/bool) misses every string key, so
the default `{}` is used; a list/dict `block_type` is unhashable
(`TypeError`). -/
def extract_rich_text (block : JVal) : Except PyErr String := do
  let block_type ← pyGet block "type" .null
  let block_payload ←
    if pyTruthy block_type then
      match block_type with
      | .str s => pyGet block s (.obj [])
      | .arr _ => .error .typeError
      | .obj _ => .error .typeError
      | _ => .ok (.obj [])
    else
      pure (.obj [])
  let rich_text ← pyGet block_payload "rich_text" (.arr [])
  let items ← pyIterate rich_text
  let pieces ← items.mapM (fun item => pyGet item "plain_text" (.str ""))
  let joined ← pyJoinStrs pieces
  return pyStrip joined

/-- `value.get("type") == "title"` — Python `==` against a string literal. -/
def jEqStrTitle : JVal → Bool
  | .str s => s = "title"
  | _ => false

/-- Is the value a Python dict (`isinstance(value, dict)`)? -/
def jIsDict : JVal → Bool
  | .obj _ => true
  | _ => false

/-- The loop body of `_extract_title`: scan the property values in order and
return the first non-empty stripped title text, else `"Untitled"`. -/
def titleScan : List JVal → Except PyErr String
  | [] => .ok "Untitled"
  | value :: rest => do
      if jIsDict value then
        let ty ← pyGet value "type" .null
        if jEqStrTitle ty then
          let title_items ← pyGet value "title" (.arr [])
          let items ← pyIterate title_items
          let pieces ← items.mapM (fun item => pyGet item "plain_text" (.str ""))
          let joined ← pyJoinStrs pieces
          let title := pyStrip joined
          if title ≠ "" then
            return title
          else
            titleScan rest
        else
          titleScan rest
      else
        titleScan rest

/-- `_extract_title(page)`:
```
properties = page.get("properties", {})
for value in properties.values():
    if isinstance(value, dict) and value.get("type") == "title":
        title = "".join(... value.get("title", []) ...).strip()
        if title: return title
return "Untitled"
```
-/
def extract_title (page : JVal) : Except PyErr String := do
  let properties ← pyGet page "properties" (.obj [])
  match properties with
  | .obj fs => titleScan (fs.map (fun kv => kv.2))
  | _ => .error .attributeError

/-- Character class of `re.split(r"[^a-zA-Z0-9一-鿿]+", ...)`:
ASCII letters, ASCII digits, CJK ideographs. -/
def isWordChar (c : Char) : Bool :=
  (('a' ≤ c && c ≤ 'z') || ('A' ≤ c && c ≤ 'Z') || ('0' ≤ c && c ≤ '9')
    || (0x4e00 ≤ c.val && c.val ≤ 0x9fff))

/-- Character-level splitter: cut at every non-word character.  After empties
are filtered out this yields exactly the maximal word-character runs, i.e. the
pieces of `re.split` on runs of non-word characters. -/
def splitRun : List Char → List Char → List (List Char)
  | [], acc => [acc.reverse]
  | c :: cs, acc =>
      if isWordChar c then splitRun cs (c :: acc)
      else acc.reverse :: splitRun cs []

/-- `_tokenize(text)`:
```
parts = re.split(r"[^a-zA-Z0-9一-鿿]+", text.lower())
return [p for p in parts if p]
```
-/
def tokenize (text : String) : List String :=
  ((splitRun (pyLower text).toList []).map (fun cs => String.mk cs)).filter
    (fun p => p ≠ "")

/-- `_score_title_match(title, query_text)`: +3 per query token that is an
exact title token, else +1 if it is a substring of the lower-cased title;
flat +4 résumé bonus. -/
def score_title_match (title query_text : String) : Nat :=
  let title_tokens := tokenize title
  let query_tokens := tokenize query_text
  let score := query_tokens.foldl
    (fun acc token =>
      if token ∈ title_tokens then acc + 3
      else if token ≠ "" && hasSubstr (pyLower title) token then acc + 1
      else acc) 0
  -- Prioritize resume-study intents.
  if (hasSubstr (pyLower query_text) "resume" || hasSubstr query_text "简历")
      && (hasSubstr (pyLower title) "resume" || hasSubstr title "简历") then
    score + 4
  else
    score

/-- One external call against the Notion API. -/
inductive ExtCall where
  /-- `notion.search(query=..., filter=page, page_size=...)` -/
  | search : String → Nat → ExtCall
  /-- `notion.blocks.children.list(block_id=..., page_size=..., start_cursor=...)` -/
  | listChildren : JVal → Nat → JVal → ExtCall
  /-- `notion.pages.retrieve(page_id=...)` -/
  | retrievePage : JVal → ExtCall

/-- One response of `notion.blocks.children.list`: the `results` array, the
`has_more` flag and the `next_cursor` value of the returned JSON object. -/
structure BlockPage where
  results : List JVal
  has_more : Bool
  next_cursor : JVal

/-- The external world: what the Notion API answers during one tool call.
`searchResults` is the `results` array of the search response, `blockPages`
the successive list-children responses, `pageMeta` the retrieved page. -/
structure NotionEnv where
  searchResults : List JVal
  blockPages : List BlockPage
  pageMeta : JVal

/-- The scoring loop of `_search_page_by_text`:
```
best_page = None; best_score = -1
for page in results:
    title = _extract_title(page)
    score = _score_title_match(title, query_text)
    if score > best_score:
        best_score = score; best_page = page
```
-/
def scoreLoop (query_text : String) :
    List JVal → Option JVal → Int → Except PyErr (Option JVal × Int)
  | [], best, bestScore => .ok (best, bestScore)
  | page :: rest, best, bestScore => do
      let title ← extract_title page
      let score : Int := (score_title_match title query_text : Nat)
      if bestScore < score then
        scoreLoop query_text rest (some page) score
      else
        scoreLoop query_text rest best bestScore

/-- `best_page or results[0]` — Python `or` returns the second operand when
the first is falsy (`None`, or the empty dict). -/
def pickChosen (best : Option JVal) (r0 : JVal) : JVal :=
  match best with
  | some p => if pyTruthy p then p else r0
  | none => r0

/-- `_search_page_by_text(query_text)`: one search call (page filter,
page_size 10); error on zero results; scoring loop; `chosen = best_page or
results[0]`; error when `chosen.get("id")` is falsy; returns
`(chosen_id, _extract_title(chosen))`. -/
def search_page_by_text (query_text : String) (env : NotionEnv) :
    Except PyErr (JVal × String) × List ExtCall :=
  let log := [ExtCall.search query_text 10]
  match env.searchResults with
  | [] => (.error (.valueError ("No Notion page found for query: " ++ query_text)), log)
  | r0 :: rest =>
      match scoreLoop query_text (r0 :: rest) none (-1) with
      | .error e => (.error e, log)
      | .ok (best, _) =>
          let chosen := pickChosen best r0
          let chosen_id := jGetD chosen "id" .null
          if pyTruthy chosen_id then
            match extract_title chosen with
            | .error e => (.error e, log)
            | .ok t => (.ok (chosen_id, t), log)
          else
            (.error (.valueError ("Found result without page id for query: " ++ query_text)), log)

/-- `isinstance(v, str) and v.strip()` used as a condition. -/
def isNonBlankStr : JVal → Bool
  | .str s => pyStrip s ≠ ""
  | _ => false

/-- Python `a or b` at value level: `a` if truthy, else `b`. -/
def pyOr (a b : JVal) : JVal :=
  if pyTruthy a then a else b

/-- `_resolve_page_id(arguments)`:
```
page_id = arguments.get("page_id")
if isinstance(page_id, str) and page_id.strip():
    return page_id.strip(), None
query_text = arguments.get("query") or arguments.get("keyword") or arguments.get("utterance")
if isinstance(query_text, str) and query_text.strip():
    resolved_page_id, matched_title = _search_page_by_text(query_text.strip())
    return resolved_page_id, matched_title
raise ValueError("Please provide page_id or query/keyword")
```
`arguments` is a dict, so `arguments.get(k)` is total (`None` default). -/
def resolve_page_id (arguments : List (String × JVal)) (env : NotionEnv) :
    Except PyErr (JVal × Option String) × List ExtCall :=
  let page_id := (dlookup arguments "page_id").getD .null
  if isNonBlankStr page_id then
    match page_id with
    | .str s => (.ok (.str (pyStrip s), none), [])
    | _ => (.error .typeError, [])  -- unreachable: isNonBlankStr requires .str
  else
    let query_text :=
      pyOr ((dlookup arguments "query").getD .null)
        (pyOr ((dlookup arguments "keyword").getD .null)
          ((dlookup arguments "utterance").getD .null))
    if isNonBlankStr query_text then
      match query_text with
      | .str s =>
          (match search_page_by_text (pyStrip s) env with
          | (.ok (pid, title), log) => (.ok (pid, some title), log)
          | (.error e, log) => (.error e, log))
      | _ => (.error .typeError, [])  -- unreachable: isNonBlankStr requires .str
    else
      (.error (.valueError "Please provide page_id or query/keyword"), [])

/-- `"\n".join(lines)`. -/
def nlJoin : List String → String
  | [] => ""
  | [s] => s
  | s :: rest => s ++ "\n" ++ nlJoin rest

/-- `_extract_text_from_blocks(blocks)`: extract each block's text, keep the
truthy (non-empty) ones in order, join with a single newline. -/
def extract_text_from_blocks (blocks : List JVal) : Except PyErr String := do
  let texts ← blocks.mapM extract_rich_text
  return nlJoin (texts.filter (fun t => t ≠ ""))

/-- The `while True` loop of `_fetch_all_blocks`, consuming the environment's
successive responses: each iteration performs one `listChildren` call with
page-size 100 and the current cursor, extends the accumulated records with the
response's `results`, stops when `has_more` is falsy, else continues with the
response's `next_cursor`. -/
def fetchLoop (page_id : JVal) :
    List BlockPage → JVal → Except PyErr (List JVal) × List ExtCall
  | [], cursor => (.error .envExhausted, [ExtCall.listChildren page_id 100 cursor])
  | p :: rest, cursor =>
      if p.has_more then
        match fetchLoop page_id rest p.next_cursor with
        | (.ok blocks, log) =>
            (.ok (p.results ++ blocks), ExtCall.listChildren page_id 100 cursor :: log)
        | (.error e, log) =>
            (.error e, ExtCall.listChildren page_id 100 cursor :: log)
      else
        (.ok p.results, [ExtCall.listChildren page_id 100 cursor])

/-- `_fetch_all_blocks(page_id)`: start with no cursor (`None`). -/
def fetch_all_blocks (page_id : JVal) (env : NotionEnv) :
    Except PyErr (List JVal) × List ExtCall :=
  fetchLoop page_id env.blockPages .null

/-- One entry of the `list_notion_blocks` debug output. -/
structure BlockEntry where
  index : Nat
  id : JVal
  btype : JVal
  has_children : JVal
  text : String

/-- The `for idx, block in enumerate(blocks)` loop of the debug branch of
`call_tool`: one entry per fetched block, `index` the enumeration position,
`text` the extracted rich text (kept even when empty). -/
def buildEntries (idx : Nat) : List JVal → Except PyErr (List BlockEntry)
  | [] => .ok []
  | block :: rest => do
      let text ← extract_rich_text block
      let idv ← pyGet block "id" .null
      let tyv ← pyGet block "type" .null
      let hcv ← pyGet block "has_children" (.bool false)
      let tail ← buildEntries (idx + 1) rest
      return { index := idx, id := idv, btype := tyv, has_children := hcv,
               text := text } :: tail

/-- A result returned by `call_tool`: the page-read dict
`{page_id, title, content, matched_by_query_title?}` or the block-listing
dict `{page_id, matched_by_query_title, count, blocks}`. -/
inductive ToolResult where
  | pageRead : JVal → String → String → Option String → ToolResult
  | blockList : JVal → Option String → Nat → List BlockEntry → ToolResult

/-- The six page-read alias tool names of `call_tool`. -/
def page_read_aliases : List String :=
  ["get_notion_page", "read_notion_page", "read_page_content",
   "summarize_notion_page", "study_notion_notes", "import_mcp_context"]

/-- `call_tool(name, arguments)`: unknown names are rejected before any
external call; known names resolve the page, fetch all blocks, and either
build the page-read result (1 metadata fetch, title extracted from the
retrieved page, flattened content, `matched_by_query_title` only when truthy)
or the debug block listing (`count = len(result_blocks)`). -/
def call_tool (name : String) (arguments : List (String × JVal))
    (env : NotionEnv) : Except PyErr ToolResult × List ExtCall :=
  if name ∉ page_read_aliases ∧ name ≠ "list_notion_blocks" then
    (.error (.valueError ("Unknown tool: " ++ name)), [])
  else
    match resolve_page_id arguments env with
    | (.error e, log₁) => (.error e, log₁)
    | (.ok (page_id, matched_title), log₁) =>
        match fetch_all_blocks page_id env with
        | (.error e, log₂) => (.error e, log₁ ++ log₂)
        | (.ok blocks, log₂) =>
            if name ∈ page_read_aliases then
              let log₃ := [ExtCall.retrievePage page_id]
              match extract_title env.pageMeta with
              | .error e => (.error e, log₁ ++ log₂ ++ log₃)
              | .ok title =>
                  match extract_text_from_blocks blocks with
                  | .error e => (.error e, log₁ ++ log₂ ++ log₃)
                  | .ok content =>
                      let matched :=
                        match matched_title with
                        | some t => if t ≠ "" then some t else none
                        | none => none
                      (.ok (.pageRead page_id title content matched), log₁ ++ log₂ ++ log₃)
            else
              match buildEntries 0 blocks with
              | .error e => (.error e, log₁ ++ log₂)
              | .ok result_blocks =>
                  (.ok (.blockList page_id matched_title result_blocks.length
                    result_blocks), log₁ ++ log₂)

/-- `min(delay_seconds * 2, 60)` — the delay update after a failed attempt. -/
def next_delay (d : Nat) : Nat := min (d * 2) 60

/-- Outcome of one `_run_once` attempt in `main`'s `while True` loop. -/
inductive Outcome where
  /-- `server.run` returned normally. -/
  | clean : Outcome
  /-- an exception was raised. -/
  | failed : Outcome

/-- One iteration of the supervisor loop: a clean exit resets the delay to 1
with no wait; a failure waits the current delay, then doubles it capped at
60. -/
def superviseStep (d : Nat) : Outcome → Nat × Option Nat
  | .clean => (1, none)
  | .failed => (next_delay d, some d)

/-- The waits performed over a sequence of attempt outcomes, starting from the
given current delay (the code starts at `delay_seconds = 1`). -/
def superviseWaits : List Outcome → Nat → List Nat
  | [], _ => []
  | o :: rest, d =>
      match superviseStep d o with
      | (d', none) => superviseWaits rest d'
      | (d', some w) => w :: superviseWaits rest d'

/-- Number of lines of a flattened-text output: 0 for the empty string, else
one more than the number of newline characters. -/
def lineCount (s : String) : Nat :=
  if s.toList = [] then 0 else s.toList.count '\n' + 1

/-- Spec-side description of the debug block entries: entry `i` carries
index `i` and the data of the `i`-th fetched block. -/
def entriesSpec (tf : JVal → String) (blocks : List JVal) : List BlockEntry :=
  (List.range blocks.length).map (fun i =>
    { index := i, id := jGetD (blocks.getD i .null) "id" .null,
      btype := jGetD (blocks.getD i .null) "type" .null,
      has_children := jGetD (blocks.getD i .null) "has_children" (.bool false),
      text := tf (blocks.getD i .null) })

/-- A span is safely consumable: a dict whose `plain_text`, when present, is a
string. -/
def spanOk : JVal → Bool
  | .obj fs =>
      match dlookup fs "plain_text" with
      | some (.str _) => true
      | none => true
      | some _ => false
  | _ => false

/-- A `rich_text` value is safely consumable: a list of well-formed spans. -/
def richTextOk : JVal → Bool
  | .arr xs => xs.all spanOk
  | _ => false

/-- A type payload is safely consumable: a dict whose `rich_text`, when
present, is well-formed. -/
def payloadOk : JVal → Bool
  | .obj fs =>
      match dlookup fs "rich_text" with
      | some rt => richTextOk rt
      | none => true
  | _ => false

/-- A block record is safely consumable by `_extract_rich_text`: a dict whose
`type`, when a string naming a present key, maps to a well-formed payload
(`type` may also be absent, or any non-list non-dict value). -/
def blockOk : JVal → Bool
  | .obj fs =>
      match dlookup fs "type" with
      | some (.str s) =>
          (match dlookup fs s with
           | some p => payloadOk p
           | none => true)
      | some (.arr _) => false
      | some (.obj _) => false
      | some _ => true
      | none => true
  | _ => false

/-- Counterexample block for C4: its extracted text contains an embedded
newline. -/
def nlBlock : JVal :=
  .obj [("type", .str "paragraph"),
    ("paragraph", .obj [("rich_text", .arr [.obj [("plain_text", .str "a\nb")]])])]

/-- Counterexample block for C10: its `type` names a payload that is a string,
not a mapping, so `block_payload.get("rich_text", [])` raises
`AttributeError`. -/
def badBlock : JVal :=
  .obj [("type", .str "a"), ("a", .str "oops")]

/-- Well-formed witness block with text "hi". -/
def blockA : JVal :=
  .obj [("id", .str "A"), ("type", .str "t"),
    ("t", .obj [("rich_text", .arr [.obj [("plain_text", .str "hi")]])])]

/-- Well-formed witness block with empty extracted text. -/
def blockB : JVal :=
  .obj [("id", .str "B")]

/-- Witness text function for `blockA` / `blockB`. -/
def tfW (b : JVal) : String :=
  match jGetD b "id" .null with
  | .str "A" => "hi"
  | _ => ""

/-- Witness environment: one block page containing `blockA, blockB`. -/
def envW : NotionEnv := ⟨[], [⟨[blockA, blockB], false, .null⟩], .null⟩

/-- Counterexample search candidate for C9: has an id and title "Zzz". -/
def cexP0 : JVal :=
  .obj [("id", .str "p0"),
    ("properties", .obj [("Name", .obj [("type", .str "title"),
      ("title", .arr [.obj [("plain_text", .str "Zzz")]])])])]

/-- Counterexample search candidate for C9: the empty dict (falsy in Python);
its extracted title is the fallback "Untitled". -/
def cexP1 : JVal := .obj []

/-- Counterexample environment for C9. -/
def envC9 : NotionEnv := ⟨[cexP0, cexP1], [], .null⟩

/-! ### Theorems -/

/-- Helper: every wait performed by the supervisor loop stays ≤ 60 as long as
the current delay is ≤ 60 (which it is from the start, `delay_seconds = 1`). -/
theorem waits_le_sixty : ∀ (os : List Outcome) (d : Nat), d ≤ 60 →
    ∀ w ∈ superviseWaits os d, w ≤ 60 := by
  intro os
  induction os with
  | nil => intro d _ w hw; simp [superviseWaits] at hw
  | cons o rest ih =>
    intro d hd w hw
    cases o with
    | clean =>
      simp only [superviseWaits, superviseStep] at hw
      exact ih 1 (by omega) w hw
    | failed =>
      simp only [superviseWaits, superviseStep, List.mem_cons] at hw
      rcases hw with rfl | hw
      · exact hd
      · exact ih (next_delay d) (by simp [next_delay]) w hw

/-- C6: under repeated immediately-failing connection attempts the waits are
1, 2, 4, 8, 16, 32, 60, 60, 60, …; every wait is ≤ 60 (after each failure the
current delay is waited, then doubled and capped at 60); a clean exit of the
serving loop resets the delay to 1 (with no wait). -/
theorem C6_backoff (os : List Outcome) (d w : Nat) (hd : d ≤ 60)
    (hw : w ∈ superviseWaits os d) :
    w ≤ 60 ∧
    superviseWaits (List.replicate 9 .failed) 1 = [1, 2, 4, 8, 16, 32, 60, 60, 60] ∧
    (∀ d0, superviseStep d0 .clean = (1, none)) ∧
    (∀ d0, superviseStep d0 .failed = (min (d0 * 2) 60, some d0)) :=
  ⟨waits_le_sixty os d hd w hw, by decide, fun _ => rfl, fun _ => rfl⟩

theorem C6_backoff_witness :
    (1 : Nat) ≤ 60 ∧ 1 ∈ superviseWaits [.failed] 1 ∧ (1 : Nat) ≤ 60 :=
  ⟨by decide, by decide, (C6_backoff [.failed] 1 1 (by decide) (by decide)).1⟩

/-- C8: an invocation whose tool name is not one of the six page-read aliases
and not `list_notion_blocks` fails with an unknown-tool error and performs
zero external calls. -/
theorem C8_unknown_tool (name : String) (arguments : List (String × JVal))
    (env : NotionEnv) (h₁ : name ∉ page_read_aliases)
    (h₂ : name ≠ "list_notion_blocks") :
    call_tool name arguments env =
      (.error (.valueError ("Unknown tool: " ++ name)), []) := by
  unfold call_tool
  rw [if_pos ⟨h₁, h₂⟩]

theorem C8_unknown_tool_witness :
    "frobnicate" ∉ page_read_aliases ∧ "frobnicate" ≠ "list_notion_blocks" ∧
    call_tool "frobnicate" [] ⟨[], [], .null⟩ =
      (.error (.valueError "Unknown tool: frobnicate"), []) :=
  ⟨by decide, by decide,
    C8_unknown_tool "frobnicate" [] ⟨[], [], .null⟩ (by decide) (by decide)⟩

/-- C3 fails as stated: the resolver does not return the `page_id` string
verbatim — it returns `page_id.strip()`.  On `{"page_id": " abc "}` it
returns `"abc"`, which differs from the supplied `" abc "`. -/
theorem C3_counterexample :
    resolve_page_id [("page_id", .str " abc ")] ⟨[], [], .null⟩ =
      (.ok (.str "abc", none), []) ∧
    pyStrip " abc " = "abc" ∧ " abc " ≠ "abc" :=
  ⟨rfl, by decide, by decide⟩

/-- C3 (amended): for every arguments mapping whose `page_id` value is a
string that is non-blank after trimming, the resolver returns the *trimmed*
`page_id` string, with no matched title and zero external (search) calls. -/
theorem C3_page_id_trimmed (arguments : List (String × JVal)) (env : NotionEnv)
    (s : String) (h : dlookup arguments "page_id" = some (.str s))
    (hnb : pyStrip s ≠ "") :
    resolve_page_id arguments env = (.ok (.str (pyStrip s), none), []) := by
  unfold resolve_page_id
  simp [h, isNonBlankStr, hnb]

theorem C3_page_id_trimmed_witness :
    dlookup [("page_id", JVal.str " x ")] "page_id" = some (.str " x ") ∧
    pyStrip " x " ≠ "" ∧
    resolve_page_id [("page_id", .str " x ")] ⟨[], [], .null⟩ =
      (.ok (.str "x", none), []) :=
  ⟨rfl, by decide,
    C3_page_id_trimmed [("page_id", .str " x ")] ⟨[], [], .null⟩ " x " rfl (by decide)⟩

/-- C2 fails as stated: with `page_id` absent, a *whitespace-only* `query` is
truthy in Python, so `arguments.get("query") or arguments.get("keyword")`
selects it; its strip is then empty and resolution fails — it does NOT fall
through to the non-blank `keyword`. -/
theorem C2_counterexample :
    resolve_page_id [("query", .str " "), ("keyword", .str "abc")] ⟨[], [], .null⟩ =
      (.error (.valueError "Please provide page_id or query/keyword"), []) ∧
    pyStrip " " = "" ∧ pyStrip "abc" ≠ "" :=
  ⟨rfl, by decide, by decide⟩

/-- C2 (amended): when `page_id` is absent or blank, the resolver selects the
first *truthy* (present and non-empty — not merely non-blank) value among
`query`, `keyword`, `utterance`, in that priority order (the last value when
none is truthy); if the selected value is a string that is non-blank after
trimming, resolution searches on its trimmed text, otherwise — a blank
string, or a non-string or absent value — resolution fails with an
invalid-argument error and performs no search.  In particular a
whitespace-only `query` (truthy) preempts a non-blank `keyword` and fails. -/
theorem C2_first_truthy (arguments : List (String × JVal)) (env : NotionEnv)
    (hpid : isNonBlankStr ((dlookup arguments "page_id").getD .null) = false) :
    pyOr ((dlookup arguments "query").getD .null)
        (pyOr ((dlookup arguments "keyword").getD .null)
          ((dlookup arguments "utterance").getD .null)) =
      (if pyTruthy ((dlookup arguments "query").getD .null) then
        (dlookup arguments "query").getD .null
       else if pyTruthy ((dlookup arguments "keyword").getD .null) then
        (dlookup arguments "keyword").getD .null
       else (dlookup arguments "utterance").getD .null) ∧
    resolve_page_id arguments env =
      (match pyOr ((dlookup arguments "query").getD .null)
          (pyOr ((dlookup arguments "keyword").getD .null)
            ((dlookup arguments "utterance").getD .null)) with
       | .str s =>
           if pyStrip s = "" then
             (.error (.valueError "Please provide page_id or query/keyword"), [])
           else
             (match search_page_by_text (pyStrip s) env with
              | (.ok (pid, title), log) => (.ok (pid, some title), log)
              | (.error e, log) => (.error e, log))
       | _ => (.error (.valueError "Please provide page_id or query/keyword"), [])) := by
  refine ⟨rfl, ?_⟩
  unfold resolve_page_id
  simp only [hpid, Bool.false_eq_true, if_false]
  cases hv : pyOr ((dlookup arguments "query").getD .null)
      (pyOr ((dlookup arguments "keyword").getD .null)
        ((dlookup arguments "utterance").getD .null)) with
  | str s =>
    by_cases hs : pyStrip s = ""
    · simp [isNonBlankStr, hs]
    · simp [isNonBlankStr, hs]
  | null => simp [isNonBlankStr]
  | bool b => simp [isNonBlankStr]
  | num n => simp [isNonBlankStr]
  | arr xs => simp [isNonBlankStr]
  | obj fs => simp [isNonBlankStr]

theorem C2_first_truthy_witness :
    resolve_page_id [("query", JVal.str " "), ("keyword", JVal.str "x")] ⟨[], [], .null⟩ =
      (.error (.valueError "Please provide page_id or query/keyword"), []) ∧
    resolve_page_id [("utterance", JVal.str " hello ")] ⟨[], [], .null⟩ =
      (.error (.valueError "No Notion page found for query: hello"),
        [.search "hello" 10]) := by
  constructor
  · have h := (C2_first_truthy [("query", .str " "), ("keyword", .str "x")]
      ⟨[], [], .null⟩ (by decide)).2
    rw [h]
    rfl
  · have h := (C2_first_truthy [("utterance", .str " hello ")]
      ⟨[], [], .null⟩ (by decide)).2
    rw [h]
    rfl

/-- Helper for C5: the fetch loop on a response sequence whose pages all
report `has_more` except the last performs one call per page (page-size 100,
cursors advancing from the given one through each page's `next_cursor`) and
concatenates the `results` arrays in order. -/
theorem fetchLoop_spec (page_id : JVal) (plast : BlockPage)
    (hlast : plast.has_more = false) :
    ∀ (ps : List BlockPage) (c : JVal), (∀ p ∈ ps, p.has_more = true) →
    fetchLoop page_id (ps ++ [plast]) c =
      (.ok (((ps ++ [plast]).map (fun p => p.results)).flatten),
       (c :: ps.map (fun p => p.next_cursor)).map
         (fun cu => ExtCall.listChildren page_id 100 cu)) := by
  intro ps
  induction ps with
  | nil =>
    intro c _
    simp [fetchLoop, hlast]
  | cons p rest ih =>
    intro c hm
    have hp : p.has_more = true := hm p (by simp)
    have ihr := ih p.next_cursor (fun q hq => hm q (by simp [hq]))
    simp only [List.cons_append, fetchLoop, hp, if_true, List.append_eq]
    rw [ihr]
    simp

/-- C5: for a sequence of N list-children response pages, every one reporting
has-more except the last, the block paginator performs exactly N external
calls — each with page-size 100, the first with no cursor (`None`), each
subsequent call using the previous response's `next_cursor` — and returns all
block records concatenated in page order, in-page order preserved. -/
theorem C5_pagination (page_id : JVal) (env : NotionEnv) (ps : List BlockPage)
    (plast : BlockPage) (henv : env.blockPages = ps ++ [plast])
    (hmore : ∀ p ∈ ps, p.has_more = true) (hlast : plast.has_more = false) :
    fetch_all_blocks page_id env =
      (.ok (((ps ++ [plast]).map (fun p => p.results)).flatten),
       (JVal.null :: ps.map (fun p => p.next_cursor)).map
         (fun cu => ExtCall.listChildren page_id 100 cu)) ∧
    ((JVal.null :: ps.map (fun p => p.next_cursor)).map
       (fun cu => ExtCall.listChildren page_id 100 cu)).length =
      (ps ++ [plast]).length := by
  constructor
  · unfold fetch_all_blocks
    rw [henv]
    exact fetchLoop_spec page_id plast hlast ps .null hmore
  · simp

theorem C5_pagination_witness :
    fetch_all_blocks (.str "pid")
        ⟨[], [⟨[.str "b1", .str "b2"], true, .str "cur1"⟩,
              ⟨[.str "b3"], false, .null⟩], .null⟩ =
      (.ok [.str "b1", .str "b2", .str "b3"],
       [.listChildren (.str "pid") 100 .null,
        .listChildren (.str "pid") 100 (.str "cur1")]) :=
  (C5_pagination (.str "pid")
    ⟨[], [⟨[.str "b1", .str "b2"], true, .str "cur1"⟩, ⟨[.str "b3"], false, .null⟩], .null⟩
    [⟨[.str "b1", .str "b2"], true, .str "cur1"⟩] ⟨[.str "b3"], false, .null⟩
    rfl (by simp) rfl).1

/-- Helper for C1: every token produced by `tokenize` is non-empty. -/
theorem tokenize_ne_empty (s : String) : ∀ t ∈ tokenize s, t ≠ "" := by
  intro t ht
  have := List.mem_filter.mp ht
  exact of_decide_eq_true this.2

/-- Helper for C1: the scoring fold equals the sum of per-token scores, for
token lists whose elements are non-empty. -/
theorem scoreFold_eq_sum (title : String) (tt : List String) :
    ∀ (l : List String) (acc : Nat), (∀ t ∈ l, t ≠ "") →
    l.foldl (fun acc token =>
        if token ∈ tt then acc + 3
        else if token ≠ "" && hasSubstr (pyLower title) token then acc + 1
        else acc) acc
      = acc + (l.map (fun t =>
          if t ∈ tt then 3
          else if hasSubstr (pyLower title) t then 1
          else 0)).sum := by
  intro l
  induction l with
  | nil => intro acc _; simp
  | cons t rest ih =>
    intro acc hne
    have htne : t ≠ "" := hne t (by simp)
    have hrest : ∀ u ∈ rest, u ≠ "" := fun u hu => hne u (by simp [hu])
    simp only [List.foldl_cons, List.map_cons, List.sum_cons]
    by_cases hmem : t ∈ tt
    · rw [if_pos hmem, if_pos hmem, ih (acc + 3) hrest]
      omega
    · rw [if_neg hmem, if_neg hmem]
      have hd : (decide (t ≠ "") && hasSubstr (pyLower title) t)
          = hasSubstr (pyLower title) t := by simp [htne]
      rw [hd]
      by_cases hsub : hasSubstr (pyLower title) t = true
      · rw [if_pos hsub, if_pos hsub, ih (acc + 1) hrest]
        omega
      · rw [if_neg hsub, if_neg hsub, ih acc hrest]
        omega

/-- C1: the fuzzy-match score is the sum, over the query's tokens
(lower-cased, split on runs of non-word characters, empties discarded), of
3 for an exact title-token match, else 1 for a raw substring of the
lower-cased title, else 0 — plus a flat 4 when both the query and the title
contain "resume" (case-insensitively) or "简历".  In particular
"project alpha review" scores 6 against "Alpha Project Retrospective" and 3
against "Quarterly Review Notes". -/
theorem C1_scoring (title query_text : String) :
    score_title_match title query_text =
      ((tokenize query_text).map (fun t =>
          if t ∈ tokenize title then 3
          else if hasSubstr (pyLower title) t then 1
          else 0)).sum +
        (if (hasSubstr (pyLower query_text) "resume" || hasSubstr query_text "简历")
            && (hasSubstr (pyLower title) "resume" || hasSubstr title "简历")
         then 4 else 0) ∧
    score_title_match "Alpha Project Retrospective" "project alpha review" = 6 ∧
    score_title_match "Quarterly Review Notes" "project alpha review" = 3 := by
  refine ⟨?_, by decide, by decide⟩
  simp only [score_title_match]
  rw [scoreFold_eq_sum title (tokenize title) (tokenize query_text) 0
    (tokenize_ne_empty query_text)]
  by_cases hb :
      (hasSubstr (pyLower query_text) "resume" || hasSubstr query_text "简历")
        && (hasSubstr (pyLower title) "resume" || hasSubstr title "简历")
  · simp [hb]
  · simp [hb]

/-- Helper: a block whose rich-text extraction succeeds is a dict. -/
theorem extract_ok_obj {b : JVal} {t : String}
    (h : extract_rich_text b = .ok t) : ∃ fs, b = .obj fs := by
  cases b <;>
    first
    | exact ⟨_, rfl⟩
    | simp [extract_rich_text, pyGet, Bind.bind, Except.bind] at h

/-- Helper for C7: when every block's extraction succeeds, the debug entry
loop succeeds and produces one entry per block, indices advancing from the
starting offset. -/
theorem buildEntries_ok (tf : JVal → String) :
    ∀ (blocks : List JVal) (idx : Nat),
    (∀ b ∈ blocks, extract_rich_text b = .ok (tf b)) →
    buildEntries idx blocks = .ok ((List.range blocks.length).map (fun i =>
      { index := idx + i,
        id := jGetD (blocks.getD i .null) "id" .null,
        btype := jGetD (blocks.getD i .null) "type" .null,
        has_children := jGetD (blocks.getD i .null) "has_children" (.bool false),
        text := tf (blocks.getD i .null) })) := by
  intro blocks
  induction blocks with
  | nil => intro idx _; rfl
  | cons b rest ih =>
    intro idx hok
    have hb : extract_rich_text b = .ok (tf b) := hok b (by simp)
    obtain ⟨fs, rfl⟩ := extract_ok_obj hb
    have ihr := ih (idx + 1) (fun q hq => hok q (by simp [hq]))
    simp only [buildEntries, hb, ihr, pyGet, Bind.bind, Except.bind,
      List.length_cons, List.range_succ_eq_map, List.map_cons, List.map_map]
    simp only [pure, Except.pure, Except.ok.injEq, List.cons.injEq]
    constructor
    · simp [jGetD]
    · apply List.map_congr_left
      intro i _
      simp [Function.comp, List.getD_cons_succ, Nat.succ_eq_add_one,
        BlockEntry.mk.injEq]
      omega

/-- C7: the block-listing (debug) tool returns one structural entry per
fetched block in fetch order — including blocks whose extracted text is empty
— each entry's index being its position in the fetched sequence (from 0), and
`count` the total number of fetched blocks; unlike the page-read content
path, empty-text blocks are not dropped. -/
theorem C7_block_listing (arguments : List (String × JVal)) (env : NotionEnv)
    (page_id : JVal) (matched : Option String) (blocks : List JVal)
    (log₁ log₂ : List ExtCall) (tf : JVal → String)
    (hres : resolve_page_id arguments env = (.ok (page_id, matched), log₁))
    (hfetch : fetch_all_blocks page_id env = (.ok blocks, log₂))
    (hok : ∀ b ∈ blocks, extract_rich_text b = .ok (tf b)) :
    call_tool "list_notion_blocks" arguments env =
      (.ok (.blockList page_id matched blocks.length (entriesSpec tf blocks)),
        log₁ ++ log₂) ∧
    (entriesSpec tf blocks).length = blocks.length ∧
    (∀ i (hi : i < (entriesSpec tf blocks).length),
      ((entriesSpec tf blocks).get ⟨i, hi⟩).index = i ∧
      ((entriesSpec tf blocks).get ⟨i, hi⟩).text = tf (blocks.getD i .null)) := by
  have hlen : (entriesSpec tf blocks).length = blocks.length := by
    simp [entriesSpec]
  have hspec : buildEntries 0 blocks = .ok (entriesSpec tf blocks) := by
    rw [buildEntries_ok tf blocks 0 hok]
    unfold entriesSpec
    congr 1
    apply List.map_congr_left
    intro i _
    simp
  refine ⟨?_, hlen, ?_⟩
  · unfold call_tool
    rw [if_neg (by decide)]
    simp only [hres, hfetch]
    rw [if_neg (by decide)]
    simp only [hspec, hlen]
  · intro i hi
    simp [entriesSpec, List.get_eq_getElem, List.getElem_map, List.getElem_range]

theorem C7_block_listing_witness :
    call_tool "list_notion_blocks" [("page_id", .str "pid")] envW =
      (.ok (.blockList (.str "pid") none 2 (entriesSpec tfW [blockA, blockB])),
        [.listChildren (.str "pid") 100 .null]) :=
  (C7_block_listing [("page_id", .str "pid")] envW (.str "pid") none
    [blockA, blockB] [] [.listChildren (.str "pid") 100 .null] tfW rfl rfl
    (List.forall_mem_cons.mpr ⟨rfl,
      List.forall_mem_cons.mpr ⟨rfl, List.forall_mem_nil _⟩⟩)).1

/-- Helper: `mapM` of a pointwise-successful extraction. -/
theorem mapM_extract_ok (tf : JVal → String) :
    ∀ (l : List JVal), (∀ b ∈ l, extract_rich_text b = .ok (tf b)) →
    l.mapM extract_rich_text = .ok (l.map tf) := by
  intro l
  induction l with
  | nil => intro _; rfl
  | cons b rest ih =>
    intro hok
    have hb : extract_rich_text b = .ok (tf b) := hok b (by simp)
    have ihr := ih (fun q hq => hok q (by simp [hq]))
    rw [List.mapM_cons, hb, ihr]
    rfl

/-- Helper: appending strings concatenates their character lists. -/
theorem toList_append (a b : String) : (a ++ b).toList = a.toList ++ b.toList := by
  simp [String.toList, String.data_append]

/-- Helper for C4: joining non-empty newline-free lines with `"\n"` gives a
non-empty string with one newline character less than the number of lines. -/
theorem nlJoin_count (l : List String)
    (h : ∀ t ∈ l, t ≠ "" ∧ '\n' ∉ t.toList) (hne : l ≠ []) :
    (nlJoin l).toList ≠ [] ∧ (nlJoin l).toList.count '\n' + 1 = l.length := by
  induction l with
  | nil => exact absurd rfl hne
  | cons s rest ih =>
    have hs := h s (by simp)
    have hsne : s.toList ≠ [] := by
      intro hx
      apply hs.1
      cases s with
      | mk d => cases hx; rfl
    have hscount : s.toList.count '\n' = 0 :=
      List.count_eq_zero.mpr hs.2
    cases rest with
    | nil =>
      refine ⟨hsne, ?_⟩
      have h1 : nlJoin [s] = s := rfl
      rw [List.length_singleton, h1, hscount]
    | cons r rest2 =>
      have ihr := ih (fun t ht => h t (by simp at ht ⊢; tauto)) (by simp)
      have hjoin : nlJoin (s :: r :: rest2) = s ++ "\n" ++ nlJoin (r :: rest2) := rfl
      constructor
      · rw [hjoin, toList_append, toList_append]
        intro hx
        rcases List.append_eq_nil.mp hx with ⟨hx1, hx2⟩
        rcases List.append_eq_nil.mp hx1 with ⟨hx3, hx4⟩
        exact absurd hx4 (by decide)
      · rw [hjoin, toList_append, toList_append, List.count_append, List.count_append]
        have h1 : (("\n" : String).toList.count '\n') = 1 := by decide
        have h2 := ihr.2
        simp only [List.length_cons] at h2 ⊢
        rw [h1, hscount]
        omega

/-- C4 fails as stated: one block whose extracted (stripped, non-empty) text
contains an embedded newline produces an output with 2 lines from 1 block, so
the output's line count is neither equal to the number of non-empty-text
blocks nor bounded by the block count. -/
theorem C4_counterexample :
    extract_rich_text nlBlock = .ok "a\nb" ∧ ("a\nb" : String) ≠ "" ∧
    extract_text_from_blocks [nlBlock] = .ok "a\nb" ∧
    lineCount "a\nb" = 2 ∧ ([nlBlock] : List JVal).length = 1 :=
  ⟨rfl, by decide, rfl, by decide, rfl⟩

/-- C4 (amended): the flattened text is formed by extracting each block's
text (rich-text spans concatenated with no separator, then stripped),
dropping blocks whose extracted text is empty, and joining the survivors with
single newlines in input order; *provided no block's extracted text itself
contains a newline*, the line count of the output equals the number of blocks
with non-empty stripped text, which is at most the block count. -/
theorem C4_flatten (blocks : List JVal) (tf : JVal → String)
    (hok : ∀ b ∈ blocks, extract_rich_text b = .ok (tf b))
    (hnl : ∀ b ∈ blocks, '\n' ∉ (tf b).toList) :
    extract_text_from_blocks blocks =
      .ok (nlJoin ((blocks.map tf).filter (fun t => t ≠ ""))) ∧
    lineCount (nlJoin ((blocks.map tf).filter (fun t => t ≠ ""))) =
      ((blocks.map tf).filter (fun t => t ≠ "")).length ∧
    ((blocks.map tf).filter (fun t => t ≠ "")).length ≤ blocks.length := by
  refine ⟨?_, ?_, ?_⟩
  · unfold extract_text_from_blocks
    rw [mapM_extract_ok tf blocks hok]
    rfl
  · have hmem : ∀ t ∈ (blocks.map tf).filter (fun t => t ≠ ""),
        t ≠ "" ∧ '\n' ∉ t.toList := by
      intro t ht
      have h1 := List.mem_filter.mp ht
      obtain ⟨b, hb, rfl⟩ := List.mem_map.mp h1.1
      exact ⟨of_decide_eq_true h1.2, hnl b hb⟩
    cases hcase : (blocks.map tf).filter (fun t => t ≠ "") with
    | nil => simp [lineCount, nlJoin]
    | cons a as =>
      rw [hcase] at hmem
      have hj := nlJoin_count (a :: as) hmem (by simp)
      unfold lineCount
      rw [if_neg hj.1, hj.2]
  · calc ((blocks.map tf).filter (fun t => t ≠ "")).length
        ≤ (blocks.map tf).length := List.length_filter_le _ _
      _ = blocks.length := List.length_map _ _

theorem C4_flatten_witness :
    extract_text_from_blocks [blockA, blockB] =
      .ok (nlJoin (([blockA, blockB].map tfW).filter (fun t => t ≠ ""))) :=
  (C4_flatten [blockA, blockB] tfW
    (List.forall_mem_cons.mpr ⟨rfl,
      List.forall_mem_cons.mpr ⟨rfl, List.forall_mem_nil _⟩⟩)
    (List.forall_mem_cons.mpr ⟨by decide,
      List.forall_mem_cons.mpr ⟨by decide, List.forall_mem_nil _⟩⟩)).1

/-- Pure view of the scoring loop once a best candidate exists: a later
candidate replaces the current best only on a strictly greater score. -/
def pureLoop (q : String) (tf : JVal → String) : List JVal → JVal → JVal
  | [], b => b
  | p :: rest, b =>
      if score_title_match (tf b) q < score_title_match (tf p) q then
        pureLoop q tf rest p
      else
        pureLoop q tf rest b

/-- Helper: once a best candidate is held (with its own score as best score),
the effectful scoring loop agrees with the pure loop. -/
theorem scoreLoop_pure (q : String) (tf : JVal → String) :
    ∀ (l : List JVal) (b : JVal),
    (∀ p ∈ l, extract_title p = .ok (tf p)) →
    scoreLoop q l (some b) ((score_title_match (tf b) q : Nat) : Int) =
      .ok (some (pureLoop q tf l b),
        ((score_title_match (tf (pureLoop q tf l b)) q : Nat) : Int)) := by
  intro l
  induction l with
  | nil => intro b _; rfl
  | cons p rest ih =>
    intro b hok
    have hp : extract_title p = .ok (tf p) := hok p (by simp)
    have hrest : ∀ x ∈ rest, extract_title x = .ok (tf x) :=
      fun x hx => hok x (by simp [hx])
    simp only [scoreLoop, pureLoop, hp, Bind.bind, Except.bind]
    by_cases hlt : score_title_match (tf b) q < score_title_match (tf p) q
    · rw [if_pos (by exact_mod_cast hlt), if_pos hlt]
      exact ih p hrest
    · rw [if_neg (by exact_mod_cast hlt), if_neg hlt]
      exact ih b hrest

/-- Helper: the first candidate always replaces the `-1` sentinel, since
scores are non-negative. -/
theorem scoreLoop_start (q : String) (tf : JVal → String) (p : JVal)
    (rest : List JVal) (hp : extract_title p = .ok (tf p)) :
    scoreLoop q (p :: rest) none (-1) =
      scoreLoop q rest (some p) ((score_title_match (tf p) q : Nat) : Int) := by
  simp only [scoreLoop, hp, Bind.bind, Except.bind]
  rw [if_pos]
  exact lt_of_lt_of_le (by norm_num) (Int.natCast_nonneg _)

/-- Helper: the pure loop returns the first candidate achieving the maximal
score among the list and the initial best (ties kept in favour of the
earlier one). -/
theorem pureLoop_argmax (q : String) (tf : JVal → String) :
    ∀ (l : List JVal) (b : JVal),
    (pureLoop q tf l b = b ∧
      ∀ p ∈ l, score_title_match (tf p) q ≤ score_title_match (tf b) q) ∨
    (∃ (i : Nat) (hi : i < l.length),
      pureLoop q tf l b = l.get ⟨i, hi⟩ ∧
      score_title_match (tf b) q < score_title_match (tf (l.get ⟨i, hi⟩)) q ∧
      (∀ p ∈ l, score_title_match (tf p) q ≤
        score_title_match (tf (l.get ⟨i, hi⟩)) q) ∧
      (∀ j (hj : j < l.length), j < i →
        score_title_match (tf (l.get ⟨j, hj⟩)) q <
          score_title_match (tf (l.get ⟨i, hi⟩)) q)) := by
  intro l
  induction l with
  | nil =>
    intro b
    left
    exact ⟨rfl, by simp⟩
  | cons p rest ih =>
    intro b
    by_cases hlt : score_title_match (tf b) q < score_title_match (tf p) q
    · have hstep : pureLoop q tf (p :: rest) b = pureLoop q tf rest p := by
        simp [pureLoop, hlt]
      rcases ih p with ⟨heq, hbound⟩ | ⟨i, hi, heq, hgt, hbound, hfirst⟩
      · right
        refine ⟨0, by simp, by rw [hstep, heq]; rfl, by simpa using hlt, ?_, ?_⟩
        · intro x hx
          rcases List.mem_cons.mp hx with rfl | hx2
          · exact le_refl _
          · exact hbound x hx2
        · intro j hj hj0
          omega
      · right
        refine ⟨i + 1, by simpa using hi, ?_, ?_, ?_, ?_⟩
        · rw [hstep, heq]
          simp
        · exact hlt.trans (by simpa using hgt)
        · intro x hx
          rcases List.mem_cons.mp hx with rfl | hx2
          · simpa using le_of_lt hgt
          · simpa using hbound x hx2
        · intro j hj hjlt
          cases j with
          | zero => simpa using hgt
          | succ j0 =>
            have hj0 : j0 < rest.length := by simpa using hj
            have := hfirst j0 hj0 (by omega)
            simpa using this
    · have hstep : pureLoop q tf (p :: rest) b = pureLoop q tf rest b := by
        simp [pureLoop, hlt]
      push_neg at hlt
      rcases ih b with ⟨heq, hbound⟩ | ⟨i, hi, heq, hgt, hbound, hfirst⟩
      · left
        refine ⟨by rw [hstep, heq], ?_⟩
        intro x hx
        rcases List.mem_cons.mp hx with rfl | hx2
        · exact hlt
        · exact hbound x hx2
      · right
        refine ⟨i + 1, by simpa using hi, ?_, by simpa using hgt, ?_, ?_⟩
        · rw [hstep, heq]
          simp
        · intro x hx
          rcases List.mem_cons.mp hx with rfl | hx2
          · simpa using le_of_lt (hlt.trans_lt hgt)
          · simpa using hbound x hx2
        · intro j hj hjlt
          cases j with
          | zero => simpa using hlt.trans_lt hgt
          | succ j0 =>
            have hj0 : j0 < rest.length := by simpa using hj
            have := hfirst j0 hj0 (by omega)
            simpa using this

/-- Helper: the winner of the pure loop is the initial best or a list
element. -/
theorem pureLoop_mem (q : String) (tf : JVal → String) :
    ∀ (l : List JVal) (b : JVal), pureLoop q tf l b = b ∨ pureLoop q tf l b ∈ l := by
  intro l
  induction l with
  | nil => intro b; left; rfl
  | cons p rest ih =>
    intro b
    by_cases hlt : score_title_match (tf b) q < score_title_match (tf p) q
    · have hstep : pureLoop q tf (p :: rest) b = pureLoop q tf rest p := by
        simp [pureLoop, hlt]
      rcases ih p with h | h
      · right; rw [hstep, h]; simp
      · right; rw [hstep]; simp [h]
    · have hstep : pureLoop q tf (p :: rest) b = pureLoop q tf rest b := by
        simp [pureLoop, hlt]
      rcases ih b with h | h
      · left; rw [hstep, h]
      · right; rw [hstep]; simp [h]

/-- Helper: full behaviour of `_search_page_by_text` once the scoring loop's
winner `R` is known: `chosen = R or results[0]` (Python `or`: an empty-dict
winner is falsy and is replaced by the first result), then the id-presence
check, then the returned title is re-extracted from the chosen page. -/
theorem search_eq_of_loop (q : String) (env : NotionEnv) (tf : JVal → String)
    (r0 : JVal) (rest : List JVal) (R : JVal) (sc : Int)
    (hres : env.searchResults = r0 :: rest)
    (hloop : scoreLoop q (r0 :: rest) none (-1) = .ok (some R, sc))
    (hok : ∀ p ∈ r0 :: rest, extract_title p = .ok (tf p))
    (hR : R ∈ r0 :: rest) :
    search_page_by_text q env =
      (let chosen := if pyTruthy R = true then R else r0
       let cid := jGetD chosen "id" .null
       (if pyTruthy cid = true then .ok (cid, tf chosen)
        else .error (.valueError ("Found result without page id for query: " ++ q)),
        [ExtCall.search q 10])) := by
  unfold search_page_by_text
  rw [hres]
  simp only [hloop, pickChosen]
  by_cases ht : pyTruthy R = true
  · have hchosen : extract_title R = .ok (tf R) := hok R hR
    simp only [ht, if_true, hchosen]
    by_cases hc : pyTruthy (jGetD R "id" .null) = true
    · simp [hc]
    · simp [hc]
  · have hchosen : extract_title r0 = .ok (tf r0) := hok r0 (by simp)
    simp only [ht, if_false, Bool.false_eq_true, hchosen]
    by_cases hc : pyTruthy (jGetD r0 "id" .null) = true
    · simp [hc]
    · simp [hc]

/-- C9 (amended): among the search results the scorer selects the candidate
with the strictly highest cumulative score, ties broken in favour of the
first-seen candidate (a later candidate replaces the current best only when
its score is strictly greater); when all scores tie, the first search result
is chosen.  *Exception forced by the code*: the final `best_page or
results[0]` treats a falsy winner (the empty dict) as missing, so in that
case the first search result is returned instead of the highest-scoring one;
the returned pair is the chosen page's id (if truthy, else a not-found error)
and its re-extracted title. -/
theorem C9_selection (q : String) (env : NotionEnv) (tf : JVal → String)
    (r0 : JVal) (rest : List JVal)
    (hres : env.searchResults = r0 :: rest)
    (hok : ∀ p ∈ r0 :: rest, extract_title p = .ok (tf p)) :
    ∃ (i : Nat) (hi : i < (r0 :: rest).length),
      (∀ j (hj : j < (r0 :: rest).length),
        score_title_match (tf ((r0 :: rest).get ⟨j, hj⟩)) q ≤
          score_title_match (tf ((r0 :: rest).get ⟨i, hi⟩)) q) ∧
      (∀ j (hj : j < (r0 :: rest).length), j < i →
        score_title_match (tf ((r0 :: rest).get ⟨j, hj⟩)) q <
          score_title_match (tf ((r0 :: rest).get ⟨i, hi⟩)) q) ∧
      ((∀ j (hj : j < (r0 :: rest).length),
          score_title_match (tf ((r0 :: rest).get ⟨j, hj⟩)) q =
            score_title_match (tf r0) q) → i = 0) ∧
      search_page_by_text q env =
        (let chosen := if pyTruthy ((r0 :: rest).get ⟨i, hi⟩) = true then
            (r0 :: rest).get ⟨i, hi⟩ else r0
         let cid := jGetD chosen "id" .null
         (if pyTruthy cid = true then .ok (cid, tf chosen)
          else .error (.valueError ("Found result without page id for query: " ++ q)),
          [ExtCall.search q 10])) := by
  have hok0 : extract_title r0 = .ok (tf r0) := hok r0 (by simp)
  have hokrest : ∀ x ∈ rest, extract_title x = .ok (tf x) :=
    fun x hx => hok x (by simp [hx])
  -- the loop's winner
  have hfull : pureLoop q tf (r0 :: rest) r0 = pureLoop q tf rest r0 := by
    simp [pureLoop]
  have hloop : scoreLoop q (r0 :: rest) none (-1) =
      .ok (some (pureLoop q tf (r0 :: rest) r0),
        ((score_title_match (tf (pureLoop q tf (r0 :: rest) r0)) q : Nat) : Int)) := by
    rw [scoreLoop_start q tf r0 rest hok0, scoreLoop_pure q tf rest r0 hokrest, hfull]
  have hRmem : pureLoop q tf (r0 :: rest) r0 ∈ r0 :: rest := by
    rcases pureLoop_mem q tf (r0 :: rest) r0 with h | h
    · rw [h]; simp
    · exact h
  have hsearch := search_eq_of_loop q env tf r0 rest
    (pureLoop q tf (r0 :: rest) r0) _ hres hloop hok hRmem
  rcases pureLoop_argmax q tf (r0 :: rest) r0 with ⟨heq, hbound⟩ |
    ⟨i, hi, heq, hgt, hbound, hfirst⟩
  · -- winner is the first result
    refine ⟨0, by simp, ?_, ?_, fun _ => rfl, ?_⟩
    · intro j hj
      exact hbound _ (List.get_mem _ _ _)
    · intro j hj hj0
      omega
    · rw [hsearch, heq]
      rfl
  · -- winner is a strictly higher-scoring later candidate
    refine ⟨i, hi, ?_, ?_, ?_, ?_⟩
    · intro j hj
      exact hbound _ (List.get_mem _ _ _)
    · intro j hj hjlt
      exact hfirst j hj hjlt
    · intro htie
      exfalso
      have h1 := htie i hi
      have h2 : score_title_match (tf r0) q <
          score_title_match (tf ((r0 :: rest).get ⟨i, hi⟩)) q := hgt
      omega
    · rw [hsearch, heq]

/-- C9 fails as stated: in `envC9` the second candidate (the empty dict,
title "Untitled") scores 3 > 0 against query "untitled", strictly more than
the first candidate (title "Zzz"), yet the search returns the *first*
candidate's id "p0" — the falsy empty-dict winner is displaced by
`best_page or results[0]`. -/
theorem C9_counterexample :
    search_page_by_text "untitled" envC9 =
      (.ok (.str "p0", "Zzz"), [.search "untitled" 10]) ∧
    extract_title cexP0 = .ok "Zzz" ∧
    extract_title cexP1 = .ok "Untitled" ∧
    score_title_match "Zzz" "untitled" = 0 ∧
    score_title_match "Untitled" "untitled" = 3 :=
  ⟨rfl, rfl, rfl, by decide, by decide⟩

theorem C9_selection_witness :
    search_page_by_text "zzz" ⟨[cexP0], [], .null⟩ =
      (.ok (.str "p0", "Zzz"), [.search "zzz" 10]) := by
  obtain ⟨i, _, _, _, htie, hsearch⟩ := C9_selection "zzz" ⟨[cexP0], [], .null⟩
    (fun _ => "Zzz") cexP0 [] rfl
    (List.forall_mem_cons.mpr ⟨rfl, List.forall_mem_nil _⟩)
  have hi0 : i = 0 := htie (fun j hj => by
    have hj0 : j = 0 := by simp at hj; omega
    subst hj0
    rfl)
  subst hi0
  rw [hsearch]
  rfl

/-- C10 fails as stated: the block `{"type": "a", "a": "oops"}` — a mapping
whose type payload is a string, not a mapping — makes
`block_payload.get("rich_text", [])` raise `AttributeError`, so extraction,
the content-flattening path and the debug block-listing path all fail on it. -/
theorem C10_counterexample :
    extract_rich_text badBlock = .error .attributeError ∧
    extract_text_from_blocks [badBlock] = .error .attributeError ∧
    buildEntries 0 [badBlock] = .error .attributeError :=
  ⟨rfl, rfl, rfl⟩

/-- Helper: extracting `plain_text` from well-formed spans yields string
values. -/
theorem mapM_spans (xs : List JVal) (h : ∀ x ∈ xs, spanOk x = true) :
    ∃ vs, xs.mapM (fun item => pyGet item "plain_text" (.str "")) = .ok vs ∧
      ∀ v ∈ vs, ∃ s, v = .str s := by
  induction xs with
  | nil => exact ⟨[], rfl, by simp⟩
  | cons x rest ih =>
    obtain ⟨vs, hvs, hstr⟩ := ih (fun y hy => h y (by simp [hy]))
    have hx := h x (by simp)
    cases x with
    | obj fs =>
      simp only [spanOk] at hx
      rcases hdl : dlookup fs "plain_text" with _ | v
      · refine ⟨.str "" :: vs, ?_, ?_⟩
        · rw [List.mapM_cons, hvs]
          simp [pyGet, hdl, Bind.bind, Except.bind, pure, Except.pure]
        · intro v hv
          rcases List.mem_cons.mp hv with rfl | hv2
          · exact ⟨"", rfl⟩
          · exact hstr v hv2
      · rw [hdl] at hx
        cases v with
        | str s =>
          refine ⟨.str s :: vs, ?_, ?_⟩
          · rw [List.mapM_cons, hvs]
            simp [pyGet, hdl, Bind.bind, Except.bind, pure, Except.pure]
          · intro v hv
            rcases List.mem_cons.mp hv with rfl | hv2
            · exact ⟨s, rfl⟩
            · exact hstr v hv2
        | null => simp at hx
        | bool b => simp at hx
        | num n => simp at hx
        | arr ys => simp at hx
        | obj gs => simp at hx
    | null => simp [spanOk] at hx
    | bool b => simp [spanOk] at hx
    | num n => simp [spanOk] at hx
    | str s => simp [spanOk] at hx
    | arr ys => simp [spanOk] at hx

theorem joinStrs_ok (vs : List JVal) (h : ∀ v ∈ vs, ∃ s, v = .str s) :
    ∃ s, pyJoinStrs vs = .ok s := by
  induction vs with
  | nil => exact ⟨"", rfl⟩
  | cons v rest ih =>
    obtain ⟨s, rfl⟩ := h v (by simp)
    obtain ⟨t, ht⟩ := ih (fun w hw => h w (by simp [hw]))
    exact ⟨s ++ t, by simp [pyJoinStrs, ht, Bind.bind, Except.bind, pure, Except.pure]⟩

theorem extract_ok_of_blockOk (b : JVal) (h : blockOk b = true) :
    ∃ t, extract_rich_text b = .ok t := by
  cases b with
  | obj fs =>
    simp only [blockOk] at h
    rcases hty : dlookup fs "type" with _ | tv
    · exact ⟨pyStrip "", by
        simp only [extract_rich_text, pyGet, Bind.bind, Except.bind, hty]
        rfl⟩
    · simp only [hty] at h
      cases tv with
      | str s =>
        by_cases hse : s.isEmpty
        · exact ⟨pyStrip "", by
            simp only [extract_rich_text, pyGet, Bind.bind, Except.bind, hty,
              Option.getD_some, pyTruthy, hse]
            rfl⟩
        · have hsef : s.isEmpty = false := by
            cases hcase : s.isEmpty
            · rfl
            · exact absurd hcase hse
          rcases hpl : dlookup fs s with _ | p
          · exact ⟨pyStrip "", by
              simp only [extract_rich_text, pyGet, Bind.bind, Except.bind, hty,
                Option.getD_some, pyTruthy, hsef, Bool.not_false, if_true, hpl,
                Option.getD_none]
              rfl⟩
          · simp only [hpl] at h
            cases p with
            | obj pfs =>
              simp only [payloadOk] at h
              rcases hrt : dlookup pfs "rich_text" with _ | rt
              · exact ⟨pyStrip "", by
                  simp only [extract_rich_text, pyGet, Bind.bind, Except.bind, hty,
                    Option.getD_some, pyTruthy, hsef, Bool.not_false, if_true, hpl,
                    hrt, Option.getD_none]
                  rfl⟩
              · simp only [hrt] at h
                cases rt with
                | arr xs =>
                  simp only [richTextOk] at h
                  have hall : ∀ x ∈ xs, spanOk x = true := by
                    intro x hx
                    exact List.all_eq_true.mp h x hx
                  obtain ⟨vs, hvs, hstr⟩ := mapM_spans xs hall
                  obtain ⟨tj, htj⟩ := joinStrs_ok vs hstr
                  simp only [pyGet] at hvs
                  refine ⟨pyStrip tj, ?_⟩
                  simp only [extract_rich_text, pyGet, Bind.bind, Except.bind, hty,
                    Option.getD_some, pyTruthy, hsef, Bool.not_false, if_true, hpl,
                    hrt, pyIterate]
                  rw [hvs]
                  simp only []
                  rw [htj]
                  rfl
                | null => simp [richTextOk] at h
                | bool b0 => simp [richTextOk] at h
                | num n => simp [richTextOk] at h
                | str t => simp [richTextOk] at h
                | obj gs => simp [richTextOk] at h
            | null => simp [payloadOk] at h
            | bool b0 => simp [payloadOk] at h
            | num n => simp [payloadOk] at h
            | str t => simp [payloadOk] at h
            | arr ys => simp [payloadOk] at h
      | null =>
        exact ⟨pyStrip "", by
          simp only [extract_rich_text, pyGet, Bind.bind, Except.bind, hty]
          rfl⟩
      | bool b0 =>
        cases b0 with
        | false =>
          exact ⟨pyStrip "", by
            simp only [extract_rich_text, pyGet, Bind.bind, Except.bind, hty]
            rfl⟩
        | true =>
          exact ⟨pyStrip "", by
            simp only [extract_rich_text, pyGet, Bind.bind, Except.bind, hty]
            rfl⟩
      | num n =>
        by_cases hn : n = 0
        · exact ⟨pyStrip "", by
            simp only [extract_rich_text, pyGet, Bind.bind, Except.bind, hty, hn]
            rfl⟩
        · exact ⟨pyStrip "", by
            simp only [extract_rich_text, pyGet, Bind.bind, Except.bind, hty,
              Option.getD_some, pyTruthy]
            rw [if_pos (by simpa using hn)]
            rfl⟩
      | arr ys => simp at h
      | obj gs => simp at h

  | null => simp [blockOk] at h
  | bool b0 => simp [blockOk] at h
  | num n => simp [blockOk] at h
  | str s => simp [blockOk] at h
  | arr ys => simp [blockOk] at h

/-- C10 (amended): per-block extraction is total on block mappings whose
shapes are consumable — `type` absent or any non-list/non-dict value; the
payload under a present string `type` key, when present, a mapping; its
`rich_text`, when present, a list of mappings whose `plain_text` values, when
present, are strings.  Absent `type`, absent payload, absent `rich_text` and
spans missing `plain_text` are all handled, and on such blocks both the
content-flattening path and the debug block-listing path succeed. -/
theorem C10_total (blocks : List JVal)
    (hok : ∀ b ∈ blocks, blockOk b = true) :
    (∀ b ∈ blocks, ∃ t, extract_rich_text b = .ok t) ∧
    (∃ out, extract_text_from_blocks blocks = .ok out) ∧
    (∃ entries, buildEntries 0 blocks = .ok entries) := by
  refine ⟨fun b hb => extract_ok_of_blockOk b (hok b hb), ?_, ?_⟩
  · have hmap : ∀ (l : List JVal), (∀ b ∈ l, blockOk b = true) →
        ∃ ts, l.mapM extract_rich_text = .ok ts := by
      intro l
      induction l with
      | nil => exact fun _ => ⟨[], rfl⟩
      | cons b rest ih =>
        intro hl
        obtain ⟨t, ht⟩ := extract_ok_of_blockOk b (hl b (by simp))
        obtain ⟨ts, hts⟩ := ih (fun x hx => hl x (by simp [hx]))
        exact ⟨t :: ts, by rw [List.mapM_cons, ht, hts]; rfl⟩
    obtain ⟨ts, hts⟩ := hmap blocks hok
    exact ⟨nlJoin (ts.filter (fun t => t ≠ "")),
      by unfold extract_text_from_blocks; rw [hts]; rfl⟩
  · have hbuild : ∀ (l : List JVal) (idx : Nat), (∀ b ∈ l, blockOk b = true) →
        ∃ entries, buildEntries idx l = .ok entries := by
      intro l
      induction l with
      | nil => exact fun idx _ => ⟨[], rfl⟩
      | cons b rest ih =>
        intro idx hl
        have hbOk := hl b (by simp)
        obtain ⟨t, ht⟩ := extract_ok_of_blockOk b hbOk
        obtain ⟨fs, rfl⟩ := extract_ok_obj ht
        obtain ⟨tail, htail⟩ := ih (idx + 1) (fun x hx => hl x (by simp [hx]))
        refine ⟨⟨idx, jGetD (.obj fs) "id" .null, jGetD (.obj fs) "type" .null,
          jGetD (.obj fs) "has_children" (.bool false), t⟩ :: tail, ?_⟩
        simp [buildEntries, ht, htail, pyGet, jGetD, Bind.bind, Except.bind,
          pure, Except.pure]
    exact hbuild blocks 0 hok

theorem C10_total_witness :
    (∀ b ∈ [blockA, blockB], blockOk b = true) ∧
    (∃ out, extract_text_from_blocks [blockA, blockB] = .ok out) :=
  ⟨by decide, (C10_total [blockA, blockB] (by decide)).2.1⟩

